import Mathlib

set_option maxRecDepth 8192

deriving instance DecidableEq for Except

/-!
Shallow embedding of the Encryption-Decryption-App repository.

Text is modelled as `List Char` (Python `str` is a sequence of code points;
Lean `Char` is a Unicode scalar value, i.e. exactly the UTF-8-representable
code points).  Byte strings are modelled as `List Nat` with entries < 256.
Functions that can raise in Python return `Except String`; the error string
records the exception message.
-/

namespace EncApp

/-! ### src/ciphers/caesar.py -/

namespace Caesar

/-- The module constant `ALPHABET = string.ascii_lowercase`. -/
def ALPHABET : List Char := "abcdefghijklmnopqrstuvwxyz".toList

/-- The derived value `ALPHABET.upper()` used inside `_shift_char`. -/
def UPPER : List Char := "ABCDEFGHIJKLMNOPQRSTUVWXYZ".toList

/-- U+212A KELVIN SIGN.  Unicode fact used by this embedding: U+212A is the
unique code point outside the ASCII letters whose Python `str.lower` image
lies inside `a`-`z` (`chr(0x212A).lower() == 'k'`).  Every other code point
either already is an ASCII letter or has a lowercase image (possibly of
length two, e.g. U+0130) that is not a substring of
`abcdefghijklmnopqrstuvwxyz`. -/
def kelvinSign : Char := '\u212A'

/-- Models the Python test `ch.lower() in ALPHABET` from `_shift_char`.
By the Unicode fact documented at `kelvinSign`, the test succeeds exactly on
the ASCII letters and on U+212A. -/
def lowerInAlphabet (ch : Char) : Bool :=
  ALPHABET.contains ch || UPPER.contains ch || ch == kelvinSign

/-- Embedding of `_shift_char(ch, shift)` from caesar.py.

The Python code returns `ch` unchanged when `ch.lower() not in ALPHABET`;
otherwise it selects `base = ALPHABET if ch.islower() else ALPHABET.upper()`
(on the guarded domain a-z, A-Z, U+212A, `str.islower` holds exactly on a-z,
i.e. exactly when `ALPHABET.contains ch`), computes `idx = base.index(ch)`
(raising `ValueError: substring not found` when `ch` does not occur in
`base`, which happens for U+212A), and returns
`base[(idx + shift) % 26]` (Python `%` on ints is true modulo, i.e.
`Int.emod` for the positive modulus 26, so the index is in `[0, 26)` and the
final indexing never raises). -/
def shift_char (ch : Char) (shift : Int) : Except String Char :=
  if !(lowerInAlphabet ch) then .ok ch
  else
    let base := if ALPHABET.contains ch then ALPHABET else UPPER
    match base.findIdx? (fun c => c == ch) with
    | none => .error "substring not found"
    | some idx => .ok (base.getD (((idx : Int) + shift) % 26).toNat 'a')

/-- Embedding of `encrypt_caesar(plaintext, shift)`: normalizes
`norm_shift = shift % 26` once and applies `_shift_char(ch, norm_shift)` to
every character; the `"".join` over a generator propagates the first raised
exception, which is exactly `List.mapM` in the `Except` monad. -/
def encrypt_caesar (plaintext : List Char) (shift : Int) :
    Except String (List Char) :=
  plaintext.mapM (fun ch => shift_char ch (shift % 26))

/-- Embedding of `decrypt_caesar(ciphertext, shift)`: normalizes
`norm_shift = shift % 26` and applies `_shift_char(ch, -norm_shift)`. -/
def decrypt_caesar (ciphertext : List Char) (shift : Int) :
    Except String (List Char) :=
  ciphertext.mapM (fun ch => shift_char ch (-(shift % 26)))

end Caesar

/-! ### src/ciphers/base64_mod.py

`encode_base64` is `pybase64.b64encode(plaintext.encode("utf-8"))` followed
by an ASCII-range `bytes.decode("utf-8")` (the identity on the Base64
output characters).  `decode_base64` wraps
`pybase64.b64decode(b64text).decode("utf-8")` and rewraps every exception
into `ValueError("Invalid Base64 input")`.  With the default
`validate=False`, `pybase64.b64decode` delegates to the standard library's
`base64.b64decode`, which ASCII-encodes a `str` argument (raising
`ValueError` on non-ASCII characters) and then calls
`binascii.a2b_base64` in non-strict mode.  The state machine of
CPython's `a2b_base64` (binascii.c) is embedded below unchanged. -/

namespace Base64Mod

/-- The standard Base64 alphabet, in sextet order. -/
def b64alphabet : List Char :=
  "ABCDEFGHIJKLMNOPQRSTUVWXYZabcdefghijklmnopqrstuvwxyz0123456789+/".toList

/-- Character for a sextet value (encoder table).  For `n < 64` this is the
`n`-th alphabet character; larger values never occur. -/
def sextetChar (n : Nat) : Char := b64alphabet.getD n 'A'

/-- Decoder table `table_a2b_base64`: the sextet value of a character, or
`none` for characters outside the Base64 alphabet. -/
def sextetOfChar (c : Char) : Option Nat :=
  b64alphabet.findIdx? (fun a => a == c)

/-- Standard Base64 encoding of a byte string (`pybase64.b64encode`):
each 3-byte group becomes 4 sextet characters; a trailing group of 2 bytes
becomes 3 characters plus `=`; a trailing single byte becomes 2 characters
plus `==`. -/
def b64encode : List Nat → List Char
  | [] => []
  | [b1] => [sextetChar (b1 / 4), sextetChar (b1 % 4 * 16), '=', '=']
  | [b1, b2] =>
    [sextetChar (b1 / 4), sextetChar (b1 % 4 * 16 + b2 / 16),
      sextetChar (b2 % 16 * 4), '=']
  | b1 :: b2 :: b3 :: rest =>
    sextetChar (b1 / 4) :: sextetChar (b1 % 4 * 16 + b2 / 16) ::
      sextetChar (b2 % 16 * 4 + b3 / 64) :: sextetChar (b3 % 64) ::
      b64encode rest

/-- The loop of CPython's `binascii.a2b_base64` in non-strict mode
(the mode used by `base64.b64decode`, hence by `decode_base64`).

State: `quadPos` (position inside the current 4-character quad),
`leftchar` (bits carried between characters), `pads` (count of the `=`
characters seen in the current pad run), `acc` (bytes emitted so far).

Per character: `=` with `quadPos >= 2` increments `pads` and, once
`quadPos + pads >= 4`, terminates successfully (remaining input ignored);
`=` with `quadPos < 2` is skipped; characters outside the alphabet are
skipped; an alphabet character resets `pads`, advances `quadPos` and emits
`(leftchar << 2) | (v >> 4)`, `(leftchar << 4) | (v >> 2)` or
`(leftchar << 6) | v` at quad positions 1, 2, 3.  At end of input,
`quadPos = 1` raises "number of data characters cannot be 1 more than a
multiple of 4" and `quadPos` in 2, 3 raises "Incorrect padding". -/
def a2b_run : List Char → Nat → Nat → Nat → List Nat →
    Except String (List Nat)
  | [], quadPos, _, _, acc =>
    if quadPos = 0 then .ok acc
    else if quadPos = 1 then
      .error "Invalid base64-encoded string: number of data characters cannot be 1 more than a multiple of 4"
    else .error "Incorrect padding"
  | c :: rest, quadPos, leftchar, pads, acc =>
    if c == '=' then
      if 2 ≤ quadPos then
        if 4 ≤ quadPos + (pads + 1) then .ok acc
        else a2b_run rest quadPos leftchar (pads + 1) acc
      else a2b_run rest quadPos leftchar pads acc
    else
      match sextetOfChar c with
      | none => a2b_run rest quadPos leftchar pads acc
      | some v =>
        if quadPos = 0 then a2b_run rest 1 v 0 acc
        else if quadPos = 1 then
          a2b_run rest 2 (v % 16) 0 (acc ++ [leftchar * 4 + v / 16])
        else if quadPos = 2 then
          a2b_run rest 3 (v % 4) 0 (acc ++ [leftchar * 16 + v / 4])
        else a2b_run rest 0 0 0 (acc ++ [leftchar * 64 + v])

/-- The byte-level Base64 decoder reached through
`base64.b64decode(s, validate=False)`. -/
def a2b_base64 (s : List Char) : Except String (List Nat) :=
  a2b_run s 0 0 0 []

/-- UTF-8 encoding of one Unicode scalar value
(`str.encode("utf-8")`, per RFC 3629). -/
def utf8EncodeChar (c : Char) : List Nat :=
  let n := c.toNat
  if n < 0x80 then [n]
  else if n < 0x800 then [0xC0 + n / 64, 0x80 + n % 64]
  else if n < 0x10000 then
    [0xE0 + n / 4096, 0x80 + n / 64 % 64, 0x80 + n % 64]
  else
    [0xF0 + n / 262144, 0x80 + n / 4096 % 64, 0x80 + n / 64 % 64,
      0x80 + n % 64]

/-- UTF-8 encoding of a character sequence (`str.encode("utf-8")`). -/
def utf8Encode (s : List Char) : List Nat := (s.map utf8EncodeChar).flatten

/-- One step of strict UTF-8 decoding (`bytes.decode("utf-8")`): given the
first byte and the remaining bytes, returns the decoded scalar value and the
bytes left over, or `none` exactly when CPython raises `UnicodeDecodeError`
at this position: continuation bytes must be in `[0x80, 0xC0)`, overlong
encodings (lead bytes `0xC0`, `0xC1`, or too-small continuations after
`0xE0`/`0xF0`), surrogates (`0xED` with second byte `>= 0xA0`) and code
points above U+10FFFF (lead bytes above `0xF4`, or `0xF4` with second byte
`>= 0x90`) are rejected. -/
def utf8DecodeOne (b1 : Nat) (rest : List Nat) : Option (Nat × List Nat) :=
  if b1 < 0x80 then some (b1, rest)
  else if b1 < 0xC2 then none
  else if b1 < 0xE0 then
    match rest with
    | b2 :: rest2 =>
      if 0x80 ≤ b2 ∧ b2 < 0xC0 then
        some ((b1 - 0xC0) * 64 + (b2 - 0x80), rest2)
      else none
    | [] => none
  else if b1 < 0xF0 then
    match rest with
    | b2 :: b3 :: rest3 =>
      if (0x80 ≤ b2 ∧ b2 < 0xC0) ∧ (0x80 ≤ b3 ∧ b3 < 0xC0) ∧
          (b1 = 0xE0 → 0xA0 ≤ b2) ∧ (b1 = 0xED → b2 < 0xA0) then
        some ((b1 - 0xE0) * 4096 + (b2 - 0x80) * 64 + (b3 - 0x80), rest3)
      else none
    | _ => none
  else if b1 < 0xF5 then
    match rest with
    | b2 :: b3 :: b4 :: rest4 =>
      if (0x80 ≤ b2 ∧ b2 < 0xC0) ∧ (0x80 ≤ b3 ∧ b3 < 0xC0) ∧
          (0x80 ≤ b4 ∧ b4 < 0xC0) ∧
          (b1 = 0xF0 → 0x90 ≤ b2) ∧ (b1 = 0xF4 → b2 < 0x90) then
        some ((b1 - 0xF0) * 262144 + (b2 - 0x80) * 4096 + (b3 - 0x80) * 64 +
          (b4 - 0x80), rest4)
      else none
    | _ => none
  else none

/-- The decoding loop of `bytes.decode("utf-8")`, with a step budget used
only to exhibit termination to Lean: each successful `utf8DecodeOne` step
consumes at least one byte, so with budget `bs.length` (as used by
`utf8Decode`) the budget never runs out and the `none` fallback for an
exhausted budget is unreachable. -/
def utf8DecodeLoop : Nat → List Nat → Option (List Char)
  | _, [] => some []
  | 0, _ :: _ => none
  | fuel + 1, b1 :: rest =>
    match utf8DecodeOne b1 rest with
    | none => none
    | some (n, rest2) =>
      (utf8DecodeLoop fuel rest2).map (fun cs => Char.ofNat n :: cs)

/-- Strict UTF-8 decoding of a byte string (`bytes.decode("utf-8")`),
returning `none` exactly when CPython raises `UnicodeDecodeError` (see
`utf8DecodeOne` for the per-character conditions). -/
def utf8Decode (bs : List Nat) : Option (List Char) :=
  utf8DecodeLoop bs.length bs

/-- Embedding of `encode_base64(plaintext)`:
`pybase64.b64encode(plaintext.encode("utf-8")).decode("utf-8")` (the final
`decode` is the identity on the ASCII Base64 output). -/
def encode_base64 (plaintext : List Char) : List Char :=
  b64encode (utf8Encode plaintext)

/-- Embedding of `decode_base64(b64text)`:
`pybase64.b64decode(b64text).decode("utf-8")` inside
`try ... except Exception: raise ValueError("Invalid Base64 input")`.
The three possible exceptions (non-ASCII argument in
`_bytes_from_decode_data`, `binascii.Error` from `a2b_base64`,
`UnicodeDecodeError` from `bytes.decode`) are all rewrapped into the same
`ValueError`. -/
def decode_base64 (b64text : List Char) : Except String (List Char) :=
  if b64text.any (fun c => 128 ≤ c.toNat) then .error "Invalid Base64 input"
  else
    match a2b_base64 b64text with
    | .error _ => .error "Invalid Base64 input"
    | .ok bytes =>
      match utf8Decode bytes with
      | none => .error "Invalid Base64 input"
      | some chars => .ok chars

end Base64Mod

/-! ### src/utils/crypto_helpers.py -/

namespace CryptoHelpers

/-- The module constant `BLOCK_SIZE = 16` (AES block size in bytes). -/
def BLOCK_SIZE : Nat := 16

/-- Embedding of `pad(data)`: PKCS7 padding,
`pad_len = BLOCK_SIZE - (len(data) % BLOCK_SIZE)` followed by
`data + bytes([pad_len] * pad_len)`. -/
def pad (data : List Nat) : List Nat :=
  let padLen := BLOCK_SIZE - data.length % BLOCK_SIZE
  data ++ List.replicate padLen padLen

/-- Embedding of `unpad(data)`: raises on empty input, reads
`pad_len = data[-1]`, validates `1 <= pad_len <= BLOCK_SIZE`, checks
`data[-pad_len:] == bytes([pad_len] * pad_len)` (Python's negative slice
`data[-k:]` is `List.drop (data.length - k)`, clamped like Python when
`k > len(data)`), and returns `data[:-pad_len]`
(`List.take (data.length - pad_len)`). -/
def unpad (data : List Nat) : Except String (List Nat) :=
  if data.length = 0 then .error "Cannot unpad empty data"
  else
    let padLen := data.getD (data.length - 1) 0
    if padLen < 1 || BLOCK_SIZE < padLen then .error "Invalid padding length"
    else if data.drop (data.length - padLen) =
        List.replicate padLen padLen then
      .ok (data.take (data.length - padLen))
    else .error "Invalid PKCS7 padding bytes"

end CryptoHelpers

/-! ### Generic list helper lemmas -/

lemma mem_of_contains {l : List Char} {c : Char} (h : l.contains c = true) :
    c ∈ l := by
  simpa using h

lemma getD_of_mem {l : List Char} {c : Char} (d : Char) (h : c ∈ l) :
    ∃ j, j < l.length ∧ l.getD j d = c := by
  induction l with
  | nil => cases h
  | cons a l ih =>
    rcases List.mem_cons.mp h with rfl | h'
    · exact ⟨0, by simp, rfl⟩
    · obtain ⟨j, hj, hje⟩ := ih h'
      exact ⟨j + 1, by simpa using hj, by simpa using hje⟩

lemma mapM_ok_spec (f : Char → Except String Char) (xs : List Char)
    (h : ∀ ch ∈ xs, ∃ c2, f ch = .ok c2) :
    ∃ ys, xs.mapM f = .ok ys ∧ ys.length = xs.length ∧
      ∀ i, i < xs.length → f (xs.getD i ' ') = .ok (ys.getD i ' ') := by
  induction xs with
  | nil =>
    refine ⟨[], by simp [List.mapM_nil]; rfl, by simp, ?_⟩
    intro i hi
    simp at hi
  | cons c xs ih =>
    obtain ⟨c2, hc2⟩ := h c (by simp)
    obtain ⟨ys, hys, hlen, hpt⟩ := ih (fun ch hch => h ch (by simp [hch]))
    refine ⟨c2 :: ys, ?_, by simp [hlen], ?_⟩
    · rw [List.mapM_cons, hc2, hys]
      rfl
    · intro i hi
      cases i with
      | zero => simpa using hc2
      | succ i => simpa using hpt i (by simpa using hi)

lemma mapM_roundtrip (f g : Char → Except String Char) (xs : List Char)
    (h : ∀ ch ∈ xs, ∃ c2, f ch = .ok c2 ∧ g c2 = .ok ch) :
    ∃ ys, xs.mapM f = .ok ys ∧ ys.mapM g = .ok xs := by
  induction xs with
  | nil => exact ⟨[], by simp [List.mapM_nil]; rfl, by simp [List.mapM_nil]; rfl⟩
  | cons c xs ih =>
    obtain ⟨c2, hf, hg⟩ := h c (by simp)
    obtain ⟨ys, hys, hgys⟩ := ih (fun ch hch => h ch (by simp [hch]))
    refine ⟨c2 :: ys, ?_, ?_⟩
    · rw [List.mapM_cons, hf, hys]
      rfl
    · rw [List.mapM_cons, hg, hgys]
      rfl

lemma mapM_congr (f g : Char → Except String Char) (xs : List Char)
    (h : ∀ ch ∈ xs, f ch = g ch) : xs.mapM f = xs.mapM g := by
  induction xs with
  | nil => rfl
  | cons c xs ih =>
    rw [List.mapM_cons, List.mapM_cons, h c (by simp),
      ih (fun ch hch => h ch (by simp [hch]))]

/-! ### Lemmas about the Caesar cipher -/

namespace Caesar

lemma lower_findIdx : ∀ j < 26,
    ALPHABET.findIdx? (fun c => c == ALPHABET.getD j 'a') = some j := by
  decide

lemma upper_findIdx : ∀ j < 26,
    UPPER.findIdx? (fun c => c == UPPER.getD j 'a') = some j := by
  decide

lemma lower_contains_getD : ∀ j < 26,
    ALPHABET.contains (ALPHABET.getD j 'a') = true := by
  decide

lemma upper_contains_getD : ∀ j < 26,
    ALPHABET.contains (UPPER.getD j 'a') = false ∧
      UPPER.contains (UPPER.getD j 'a') = true := by
  decide

/-- Every character is a lowercase alphabet entry, an uppercase alphabet
entry, or outside both alphabets. -/
lemma char_cases (ch : Char) :
    (∃ j, j < 26 ∧ ALPHABET.getD j 'a' = ch) ∨
      (∃ j, j < 26 ∧ UPPER.getD j 'a' = ch) ∨
      (ALPHABET.contains ch = false ∧ UPPER.contains ch = false) := by
  by_cases h1 : ALPHABET.contains ch = true
  · obtain ⟨j, hj, hje⟩ := getD_of_mem 'a' (mem_of_contains h1)
    exact Or.inl ⟨j, by simpa using hj, hje⟩
  · by_cases h2 : UPPER.contains ch = true
    · obtain ⟨j, hj, hje⟩ := getD_of_mem 'a' (mem_of_contains h2)
      exact Or.inr (Or.inl ⟨j, by simpa using hj, hje⟩)
    · exact Or.inr (Or.inr ⟨by simpa using h1, by simpa using h2⟩)

lemma shift_char_lower (j : Nat) (hj : j < 26) (a : Int) :
    shift_char (ALPHABET.getD j 'a') a =
      .ok (ALPHABET.getD (((j : Int) + a) % 26).toNat 'a') := by
  have hc := lower_contains_getD j hj
  have hf := lower_findIdx j hj
  simp only [shift_char, lowerInAlphabet, hc, Bool.true_or, Bool.not_true,
    Bool.false_eq_true, if_false, if_true, hf]

lemma shift_char_upper (j : Nat) (hj : j < 26) (a : Int) :
    shift_char (UPPER.getD j 'a') a =
      .ok (UPPER.getD (((j : Int) + a) % 26).toNat 'a') := by
  obtain ⟨hc1, hc2⟩ := upper_contains_getD j hj
  have hf := upper_findIdx j hj
  simp only [shift_char, lowerInAlphabet, hc1, hc2, Bool.false_or,
    Bool.true_or, Bool.not_true, Bool.false_eq_true, if_false, if_true, hf]

lemma shift_char_other (ch : Char) (h1 : ALPHABET.contains ch = false)
    (h2 : UPPER.contains ch = false) (h3 : ch ≠ kelvinSign) (a : Int) :
    shift_char ch a = .ok ch := by
  have h3' : (ch == kelvinSign) = false := by
    simpa using h3
  simp only [shift_char, lowerInAlphabet, h1, h2, h3', Bool.false_or,
    Bool.not_false, if_true]

/-- On U+212A the guard passes (lowercase image `k` is in the alphabet), the
uppercase table is selected (`islower` is false), and `base.index` raises. -/
lemma shift_char_kelvin (a : Int) :
    shift_char kelvinSign a = .error "substring not found" := by
  rfl

lemma shift_char_total (ch : Char) (hk : ch ≠ kelvinSign) (a : Int) :
    ∃ c2, shift_char ch a = .ok c2 := by
  rcases char_cases ch with ⟨j, hj, rfl⟩ | ⟨j, hj, rfl⟩ | ⟨h1, h2⟩
  · exact ⟨_, shift_char_lower j hj a⟩
  · exact ⟨_, shift_char_upper j hj a⟩
  · exact ⟨ch, shift_char_other ch h1 h2 hk a⟩

lemma shift_char_roundtrip (ch : Char) (hk : ch ≠ kelvinSign) (s : Int) :
    ∃ c2, shift_char ch (s % 26) = .ok c2 ∧
      shift_char c2 (-(s % 26)) = .ok ch := by
  rcases char_cases ch with ⟨j, hj, rfl⟩ | ⟨j, hj, rfl⟩ | ⟨h1, h2⟩
  · refine ⟨_, shift_char_lower j hj (s % 26), ?_⟩
    have hj2 : (((j : Int) + s % 26) % 26).toNat < 26 := by omega
    rw [shift_char_lower _ hj2]
    have : ((((((j : Int) + s % 26) % 26).toNat : Nat) : Int) + -(s % 26)) %
        26 = (j : Int) := by
      omega
    rw [this]
    simp
  · refine ⟨_, shift_char_upper j hj (s % 26), ?_⟩
    have hj2 : (((j : Int) + s % 26) % 26).toNat < 26 := by omega
    rw [shift_char_upper _ hj2]
    have : ((((((j : Int) + s % 26) % 26).toNat : Nat) : Int) + -(s % 26)) %
        26 = (j : Int) := by
      omega
    rw [this]
    simp
  · exact ⟨ch, shift_char_other ch h1 h2 hk _, shift_char_other ch h1 h2 hk _⟩

lemma shift_char_congr (ch : Char) {a b : Int} (hab : a % 26 = b % 26) :
    shift_char ch a = shift_char ch b := by
  by_cases hk : ch = kelvinSign
  · rw [hk, shift_char_kelvin, shift_char_kelvin]
  · rcases char_cases ch with ⟨j, hj, rfl⟩ | ⟨j, hj, rfl⟩ | ⟨h1, h2⟩
    · rw [shift_char_lower j hj, shift_char_lower j hj]
      have : (((j : Int) + a) % 26).toNat = (((j : Int) + b) % 26).toNat := by
        omega
      rw [this]
    · rw [shift_char_upper j hj, shift_char_upper j hj]
      have : (((j : Int) + a) % 26).toNat = (((j : Int) + b) % 26).toNat := by
        omega
      rw [this]
    · rw [shift_char_other ch h1 h2 hk, shift_char_other ch h1 h2 hk]

end Caesar

/-! ### Lemmas about the Base64 codec -/

namespace Base64Mod

lemma sextetOfChar_sextetChar : ∀ v < 64,
    sextetOfChar (sextetChar v) = some v := by
  decide

lemma sextetChar_ne_pad : ∀ v < 64, (sextetChar v == '=') = false := by
  decide

lemma sextetChar_lt_128 : ∀ v < 64, (sextetChar v).toNat < 128 := by
  decide

lemma sextetOfChar_pad : sextetOfChar '=' = none := by
  decide

/-- Unfolding of one `a2b_run` step on an alphabet character. -/
lemma a2b_run_cons_valid {c : Char} {v : Nat} (hv : sextetOfChar c = some v)
    (rest : List Char) (q l p : Nat) (acc : List Nat) :
    a2b_run (c :: rest) q l p acc =
      if q = 0 then a2b_run rest 1 v 0 acc
      else if q = 1 then a2b_run rest 2 (v % 16) 0 (acc ++ [l * 4 + v / 16])
      else if q = 2 then a2b_run rest 3 (v % 4) 0 (acc ++ [l * 16 + v / 4])
      else a2b_run rest 0 0 0 (acc ++ [l * 64 + v]) := by
  have hne : (c == '=') = false := by
    rcases h : c == '=' with _ | _
    · rfl
    · rw [beq_iff_eq] at h
      rw [h, sextetOfChar_pad] at hv
      cases hv
  simp only [a2b_run, hne, Bool.false_eq_true, if_false, hv]

lemma a2b_step0 {c : Char} {v : Nat} (hv : sextetOfChar c = some v)
    (rest : List Char) (l p : Nat) (acc : List Nat) :
    a2b_run (c :: rest) 0 l p acc = a2b_run rest 1 v 0 acc := by
  rw [a2b_run_cons_valid hv]
  norm_num

lemma a2b_step1 {c : Char} {v : Nat} (hv : sextetOfChar c = some v)
    (rest : List Char) (l p : Nat) (acc : List Nat) :
    a2b_run (c :: rest) 1 l p acc =
      a2b_run rest 2 (v % 16) 0 (acc ++ [l * 4 + v / 16]) := by
  rw [a2b_run_cons_valid hv]
  norm_num

lemma a2b_step2 {c : Char} {v : Nat} (hv : sextetOfChar c = some v)
    (rest : List Char) (l p : Nat) (acc : List Nat) :
    a2b_run (c :: rest) 2 l p acc =
      a2b_run rest 3 (v % 4) 0 (acc ++ [l * 16 + v / 4]) := by
  rw [a2b_run_cons_valid hv]
  norm_num

lemma a2b_step3 {c : Char} {v : Nat} (hv : sextetOfChar c = some v)
    (rest : List Char) (l p : Nat) (acc : List Nat) :
    a2b_run (c :: rest) 3 l p acc =
      a2b_run rest 0 0 0 (acc ++ [l * 64 + v]) := by
  rw [a2b_run_cons_valid hv]
  norm_num

/-- Processing a full encoded quad emits the three source bytes and returns
to quad position 0. -/
lemma a2b_run_quad {b1 b2 b3 : Nat} (h1 : b1 < 256) (h2 : b2 < 256)
    (h3 : b3 < 256) (rest : List Char) (l p : Nat) (acc : List Nat) :
    a2b_run (sextetChar (b1 / 4) :: sextetChar (b1 % 4 * 16 + b2 / 16) ::
        sextetChar (b2 % 16 * 4 + b3 / 64) :: sextetChar (b3 % 64) :: rest)
        0 l p acc =
      a2b_run rest 0 0 0 (acc ++ [b1, b2, b3]) := by
  have v1 : b1 / 4 < 64 := by omega
  have v2 : b1 % 4 * 16 + b2 / 16 < 64 := by omega
  have v3 : b2 % 16 * 4 + b3 / 64 < 64 := by omega
  have v4 : b3 % 64 < 64 := by omega
  rw [a2b_step0 (sextetOfChar_sextetChar _ v1),
    a2b_step1 (sextetOfChar_sextetChar _ v2),
    a2b_step2 (sextetOfChar_sextetChar _ v3),
    a2b_step3 (sextetOfChar_sextetChar _ v4)]
  have e1 : b1 / 4 * 4 + (b1 % 4 * 16 + b2 / 16) / 16 = b1 := by omega
  have e2 : (b1 % 4 * 16 + b2 / 16) % 16 * 16 +
      (b2 % 16 * 4 + b3 / 64) / 4 = b2 := by omega
  have e3 : (b2 % 16 * 4 + b3 / 64) % 4 * 64 + b3 % 64 = b3 := by omega
  rw [e1, e2, e3]
  simp

/-- Processing a two-byte tail group (three characters and one `=`) emits the
two source bytes and terminates successfully. -/
lemma a2b_run_tail2 {b1 b2 : Nat} (h1 : b1 < 256) (h2 : b2 < 256)
    (l p : Nat) (acc : List Nat) :
    a2b_run [sextetChar (b1 / 4), sextetChar (b1 % 4 * 16 + b2 / 16),
        sextetChar (b2 % 16 * 4), '='] 0 l p acc =
      .ok (acc ++ [b1, b2]) := by
  have v1 : b1 / 4 < 64 := by omega
  have v2 : b1 % 4 * 16 + b2 / 16 < 64 := by omega
  have v3 : b2 % 16 * 4 < 64 := by omega
  rw [a2b_step0 (sextetOfChar_sextetChar _ v1),
    a2b_step1 (sextetOfChar_sextetChar _ v2),
    a2b_step2 (sextetOfChar_sextetChar _ v3)]
  have e1 : b1 / 4 * 4 + (b1 % 4 * 16 + b2 / 16) / 16 = b1 := by omega
  have e2 : (b1 % 4 * 16 + b2 / 16) % 16 * 16 + b2 % 16 * 4 / 4 = b2 := by
    omega
  rw [e1, e2]
  simp [a2b_run]

/-- Processing a one-byte tail group (two characters and two `=`) emits the
source byte and terminates successfully. -/
lemma a2b_run_tail1 {b1 : Nat} (h1 : b1 < 256) (l p : Nat) (acc : List Nat) :
    a2b_run [sextetChar (b1 / 4), sextetChar (b1 % 4 * 16), '=', '='] 0 l p
        acc =
      .ok (acc ++ [b1]) := by
  have v1 : b1 / 4 < 64 := by omega
  have v2 : b1 % 4 * 16 < 64 := by omega
  rw [a2b_step0 (sextetOfChar_sextetChar _ v1),
    a2b_step1 (sextetOfChar_sextetChar _ v2)]
  have e1 : b1 / 4 * 4 + b1 % 4 * 16 / 16 = b1 := by omega
  rw [e1]
  simp [a2b_run]

/-- Decoding an encoded byte string succeeds and recovers the bytes. -/
lemma a2b_run_b64encode : ∀ (bs : List Nat), (∀ b ∈ bs, b < 256) →
    ∀ (l p : Nat) (acc : List Nat),
      a2b_run (b64encode bs) 0 l p acc = .ok (acc ++ bs) := by
  intro bs
  induction bs using b64encode.induct with
  | case1 =>
    intro _ l p acc
    simp [b64encode, a2b_run]
  | case2 b1 =>
    intro h l p acc
    rw [b64encode, a2b_run_tail1 (h b1 (by simp))]
  | case3 b1 b2 =>
    intro h l p acc
    rw [b64encode, a2b_run_tail2 (h b1 (by simp)) (h b2 (by simp))]
  | case4 b1 b2 b3 rest ih =>
    intro h l p acc
    rw [b64encode,
      a2b_run_quad (h b1 (by simp)) (h b2 (by simp)) (h b3 (by simp)),
      ih (fun b hb => h b (by simp [hb]))]
    simp

/-- Every character produced by the Base64 encoder is ASCII. -/
lemma b64encode_lt_128 : ∀ (bs : List Nat), ∀ c ∈ b64encode bs,
    c.toNat < 128 := by
  have hsex : ∀ n : Nat, (sextetChar n).toNat < 128 := by
    intro n
    by_cases hn : n < 64
    · exact sextetChar_lt_128 n hn
    · have : b64alphabet.length ≤ n := by
        have : b64alphabet.length = 64 := by decide
        omega
      simp only [sextetChar, List.getD_eq_default _ _ this]
      decide
  intro bs
  induction bs using b64encode.induct with
  | case1 => simp [b64encode]
  | case2 b1 =>
    intro c hc
    rcases (by simpa [b64encode] using hc :
        c = sextetChar (b1 / 4) ∨ c = sextetChar (b1 % 4 * 16) ∨ c = '=') with
      rfl | rfl | rfl
    · exact hsex _
    · exact hsex _
    · decide
  | case3 b1 b2 =>
    intro c hc
    rcases (by simpa [b64encode] using hc :
        c = sextetChar (b1 / 4) ∨ c = sextetChar (b1 % 4 * 16 + b2 / 16) ∨
          c = sextetChar (b2 % 16 * 4) ∨ c = '=') with rfl | rfl | rfl | rfl
    · exact hsex _
    · exact hsex _
    · exact hsex _
    · decide
  | case4 b1 b2 b3 rest ih =>
    intro c hc
    rcases (by simpa [b64encode] using hc :
        c = sextetChar (b1 / 4) ∨ c = sextetChar (b1 % 4 * 16 + b2 / 16) ∨
          c = sextetChar (b2 % 16 * 4 + b3 / 64) ∨ c = sextetChar (b3 % 64) ∨
          c ∈ b64encode rest) with rfl | rfl | rfl | rfl | hmem
    · exact hsex _
    · exact hsex _
    · exact hsex _
    · exact hsex _
    · exact ih c hmem

lemma char_valid_nat (c : Char) :
    c.toNat < 0xD800 ∨ (0xDFFF < c.toNat ∧ c.toNat < 0x110000) :=
  c.valid

lemma utf8EncodeChar_lt_256 (c : Char) : ∀ b ∈ utf8EncodeChar c, b < 256 := by
  have hn : c.toNat < 0x110000 := by
    rcases char_valid_nat c with h | ⟨_, h⟩
    · omega
    · omega
  intro b hb
  simp only [utf8EncodeChar] at hb
  split_ifs at hb with h1 h2 h3
  · rcases (by simpa using hb) with rfl
    omega
  · rcases (by simpa using hb : b = 0xC0 + c.toNat / 64 ∨
        b = 0x80 + c.toNat % 64) with rfl | rfl
    · omega
    · omega
  · rcases (by simpa using hb : b = 0xE0 + c.toNat / 4096 ∨
        b = 0x80 + c.toNat / 64 % 64 ∨ b = 0x80 + c.toNat % 64) with
      rfl | rfl | rfl
    · omega
    · omega
    · omega
  · rcases (by simpa using hb : b = 0xF0 + c.toNat / 262144 ∨
        b = 0x80 + c.toNat / 4096 % 64 ∨ b = 0x80 + c.toNat / 64 % 64 ∨
        b = 0x80 + c.toNat % 64) with rfl | rfl | rfl | rfl
    · omega
    · omega
    · omega
    · omega

/-- A successful decode step only consumes bytes. -/
lemma utf8DecodeOne_length {b1 : Nat} {rest : List Nat} {n : Nat}
    {rest2 : List Nat} (h : utf8DecodeOne b1 rest = some (n, rest2)) :
    rest2.length ≤ rest.length := by
  rcases rest with _ | ⟨b2, rest⟩
  · simp only [utf8DecodeOne] at h
    split_ifs at h <;> cases h
    exact Nat.le_refl _
  · rcases rest with _ | ⟨b3, rest⟩
    · simp only [utf8DecodeOne] at h
      split_ifs at h <;> cases h <;>
        simp only [List.length_cons, List.length_nil] <;> omega
    · rcases rest with _ | ⟨b4, rest⟩
      · simp only [utf8DecodeOne] at h
        split_ifs at h <;> cases h <;>
          simp only [List.length_cons, List.length_nil] <;> omega
      · simp only [utf8DecodeOne] at h
        split_ifs at h <;> cases h <;>
          simp only [List.length_cons, List.length_nil] <;> omega

/-- The decode loop does not depend on the step budget once the budget
covers the input length. -/
lemma utf8DecodeLoop_fuel : ∀ (f1 f2 : Nat) (bs : List Nat),
    bs.length ≤ f1 → bs.length ≤ f2 →
      utf8DecodeLoop f1 bs = utf8DecodeLoop f2 bs := by
  intro f1
  induction f1 with
  | zero =>
    intro f2 bs h1 _
    have hbs : bs = [] := by
      cases bs
      · rfl
      · simp at h1
    subst hbs
    cases f2 <;> rfl
  | succ f1 ih =>
    intro f2 bs h1 h2
    cases bs with
    | nil => cases f2 <;> rfl
    | cons b1 rest =>
      cases f2 with
      | zero => simp at h2
      | succ f2 =>
        rcases h : utf8DecodeOne b1 rest with _ | ⟨n, rest2⟩
        · simp only [utf8DecodeLoop, h]
        · have hle := utf8DecodeOne_length h
          simp only [utf8DecodeLoop, h]
          simp only [List.length_cons] at h1 h2
          rw [ih f2 rest2 (by omega) (by omega)]

/-- Unfolding of `utf8Decode` on a nonempty byte string. -/
lemma utf8Decode_cons (b1 : Nat) (rest : List Nat) :
    utf8Decode (b1 :: rest) =
      match utf8DecodeOne b1 rest with
      | none => none
      | some (n, rest2) =>
        (utf8Decode rest2).map (fun cs => Char.ofNat n :: cs) := by
  rcases h : utf8DecodeOne b1 rest with _ | ⟨n, rest2⟩
  · simp only [utf8Decode, List.length_cons, utf8DecodeLoop, h]
  · have hle := utf8DecodeOne_length h
    simp only [utf8Decode, List.length_cons, utf8DecodeLoop, h]
    rw [utf8DecodeLoop_fuel rest.length rest2.length rest2 (by omega)
      (by omega)]

/-- One decode step on the encoding of a character consumes exactly its
bytes and recovers its scalar value. -/
lemma utf8DecodeOne_encode (c : Char) (rest : List Nat) :
    ∃ b1 bs, utf8EncodeChar c = b1 :: bs ∧
      utf8DecodeOne b1 (bs ++ rest) = some (c.toNat, rest) := by
  have hv := char_valid_nat c
  by_cases h1 : c.toNat < 0x80
  · refine ⟨c.toNat, [], by simp [utf8EncodeChar, h1], ?_⟩
    simp only [List.nil_append, utf8DecodeOne]
    rw [if_pos h1]
  · by_cases h2 : c.toNat < 0x800
    · refine ⟨0xC0 + c.toNat / 64, [0x80 + c.toNat % 64],
        by simp [utf8EncodeChar, h1, h2], ?_⟩
      simp only [List.cons_append, List.nil_append, utf8DecodeOne]
      rw [if_neg (by omega), if_neg (by omega), if_pos (by omega),
        if_pos (by omega)]
      have hval : (0xC0 + c.toNat / 64 - 0xC0) * 64 +
          (0x80 + c.toNat % 64 - 0x80) = c.toNat := by
        omega
      rw [hval]
    · by_cases h3 : c.toNat < 0x10000
      · refine ⟨0xE0 + c.toNat / 4096,
          [0x80 + c.toNat / 64 % 64, 0x80 + c.toNat % 64],
          by simp [utf8EncodeChar, h1, h2, h3], ?_⟩
        simp only [List.cons_append, List.nil_append, utf8DecodeOne]
        rw [if_neg (by omega), if_neg (by omega), if_neg (by omega),
          if_pos (by omega), if_pos (by omega)]
        have hval : (0xE0 + c.toNat / 4096 - 0xE0) * 4096 +
            (0x80 + c.toNat / 64 % 64 - 0x80) * 64 +
            (0x80 + c.toNat % 64 - 0x80) = c.toNat := by
          omega
        rw [hval]
      · have h4 : c.toNat < 0x110000 := by
          omega
        refine ⟨0xF0 + c.toNat / 262144,
          [0x80 + c.toNat / 4096 % 64, 0x80 + c.toNat / 64 % 64,
            0x80 + c.toNat % 64],
          by simp [utf8EncodeChar, h1, h2, h3], ?_⟩
        simp only [List.cons_append, List.nil_append, utf8DecodeOne]
        rw [if_neg (by omega), if_neg (by omega), if_neg (by omega),
          if_neg (by omega), if_pos (by omega), if_pos (by omega)]
        have hval : (0xF0 + c.toNat / 262144 - 0xF0) * 262144 +
            (0x80 + c.toNat / 4096 % 64 - 0x80) * 4096 +
            (0x80 + c.toNat / 64 % 64 - 0x80) * 64 +
            (0x80 + c.toNat % 64 - 0x80) = c.toNat := by
          omega
        rw [hval]

/-- Decoding a UTF-8 encoded character consumes exactly its bytes and yields
the character back. -/
lemma utf8Decode_encodeChar (c : Char) (rest : List Nat) :
    utf8Decode (utf8EncodeChar c ++ rest) =
      (utf8Decode rest).map (fun cs => c :: cs) := by
  obtain ⟨b1, bs, he, hd⟩ := utf8DecodeOne_encode c rest
  rw [he, List.cons_append, utf8Decode_cons, hd]
  show (utf8Decode rest).map (fun cs => Char.ofNat c.toNat :: cs) = _
  rw [Char.ofNat_toNat]

lemma utf8Encode_cons (c : Char) (s : List Char) :
    utf8Encode (c :: s) = utf8EncodeChar c ++ utf8Encode s := by
  simp [utf8Encode]

lemma utf8Encode_lt_256 (s : List Char) : ∀ b ∈ utf8Encode s, b < 256 := by
  intro b hb
  simp only [utf8Encode, List.mem_flatten, List.mem_map] at hb
  obtain ⟨l, ⟨c, _, rfl⟩, hbl⟩ := hb
  exact utf8EncodeChar_lt_256 c b hbl

lemma utf8_roundtrip (s : List Char) : utf8Decode (utf8Encode s) = some s := by
  induction s with
  | nil => rfl
  | cons c s ih =>
    rw [utf8Encode_cons, utf8Decode_encodeChar, ih]
    rfl

/-- Full codec round trip at the level of the embedded functions. -/
lemma decode_encode (x : List Char) :
    decode_base64 (encode_base64 x) = .ok x := by
  have hany : (encode_base64 x).any (fun c => 128 ≤ c.toNat) = false := by
    rw [List.any_eq_false]
    intro ch hch
    have hlt := b64encode_lt_128 (utf8Encode x) ch hch
    simp only [decide_eq_true_eq]
    omega
  have ha : a2b_base64 (encode_base64 x) = .ok (utf8Encode x) := by
    rw [encode_base64, a2b_base64,
      a2b_run_b64encode (utf8Encode x) (utf8Encode_lt_256 x)]
    rw [List.nil_append]
  simp only [decode_base64, hany, Bool.false_eq_true, if_false, ha,
    utf8_roundtrip]

end Base64Mod

/-! ### Derived lemmas about encryption and decryption -/

namespace Caesar

lemma getD_ne_kelvin {xs : List Char} (h : kelvinSign ∉ xs) {i : Nat}
    (hi : i < xs.length) : xs.getD i ' ' ≠ kelvinSign := by
  rw [List.getD_eq_getElem?_getD, List.getElem?_eq_getElem hi]
  intro heq
  exact h (heq ▸ List.getElem_mem hi)

lemma mem_ne_kelvin {xs : List Char} (h : kelvinSign ∉ xs) {ch : Char}
    (hch : ch ∈ xs) : ch ≠ kelvinSign := by
  intro heq
  exact h (heq ▸ hch)

lemma encrypt_total {xs : List Char} (s : Int) (h : kelvinSign ∉ xs) :
    ∃ ys, encrypt_caesar xs s = .ok ys ∧ ys.length = xs.length ∧
      ∀ i, i < xs.length →
        shift_char (xs.getD i ' ') (s % 26) = .ok (ys.getD i ' ') :=
  mapM_ok_spec _ xs
    (fun ch hch => shift_char_total ch (mem_ne_kelvin h hch) _)

lemma decrypt_total {xs : List Char} (s : Int) (h : kelvinSign ∉ xs) :
    ∃ ys, decrypt_caesar xs s = .ok ys ∧ ys.length = xs.length ∧
      ∀ i, i < xs.length →
        shift_char (xs.getD i ' ') (-(s % 26)) = .ok (ys.getD i ' ') :=
  mapM_ok_spec _ xs
    (fun ch hch => shift_char_total ch (mem_ne_kelvin h hch) _)

lemma encrypt_decrypt_roundtrip {xs : List Char} (s : Int)
    (h : kelvinSign ∉ xs) :
    ∃ ys, encrypt_caesar xs s = .ok ys ∧ decrypt_caesar ys s = .ok xs :=
  mapM_roundtrip _ _ xs
    (fun ch hch => shift_char_roundtrip ch (mem_ne_kelvin h hch) s)

lemma encrypt_eq_of_emod_eq {a b : Int} (xs : List Char)
    (hab : a % 26 = b % 26) : encrypt_caesar xs a = encrypt_caesar xs b :=
  mapM_congr _ _ xs (fun ch _ => shift_char_congr ch (by omega))

end Caesar

namespace CryptoHelpers

lemma pad_eq (data : List Nat) :
    pad data = data ++ List.replicate (16 - data.length % 16)
      (16 - data.length % 16) := by
  simp [pad, BLOCK_SIZE]

lemma pad_length (data : List Nat) :
    (pad data).length = data.length + (16 - data.length % 16) := by
  rw [pad_eq]
  simp

lemma unpad_pad (data : List Nat) : unpad (pad data) = .ok data := by
  have hmod : data.length % 16 < 16 := by omega
  set k := 16 - data.length % 16 with hk
  have hk1 : 1 ≤ k := by omega
  have hk16 : k ≤ 16 := by omega
  have hpad : pad data = data ++ List.replicate k k := pad_eq data
  have hlen : (pad data).length = data.length + k := pad_length data
  have hgetD : (pad data).getD ((pad data).length - 1) 0 = k := by
    rw [hlen, hpad, List.getD_append_right _ _ _ _ (by omega)]
    have he : data.length + k - 1 - data.length = k - 1 := by omega
    rw [he, List.getD_eq_getElem?_getD, List.getElem?_replicate,
      if_pos (by omega)]
    rfl
  have hdrop : (pad data).drop ((pad data).length - k) =
      List.replicate k k := by
    rw [hlen, hpad]
    have he : data.length + k - k = data.length := by omega
    rw [he, List.drop_left]
  have htake : (pad data).take ((pad data).length - k) = data := by
    rw [hlen, hpad]
    have he : data.length + k - k = data.length := by omega
    rw [he, List.take_left]
  rw [unpad, if_neg (by omega)]
  simp only [hgetD, BLOCK_SIZE]
  rw [if_neg (by simp; omega), if_pos hdrop, htake]

end CryptoHelpers

/-! ### Claim theorems -/

/-- C1 counterexample: the input `"QQ==@"` contains `'@'`, a character
outside the Base64 alphabet and distinct from the padding character, yet
`decode_base64` succeeds (returning `"A"`) instead of failing: the decoder
discards non-alphabet characters. -/
theorem C1_counterexample :
    ('@' ∈ "QQ==@".toList ∧ Base64Mod.sextetOfChar '@' = none ∧
      '@' ≠ '=') ∧
      Base64Mod.decode_base64 "QQ==@".toList = .ok "A".toList := by
  decide

/-- C1 amended: `decode_base64` fails with the `ValueError` realisation
exactly when the input contains a non-ASCII character, the byte-level
Base64 decoder rejects it (after discarding non-alphabet characters), or
the decoded bytes are not valid UTF-8; in particular the spec example
`"not-valid@@@"` does fail. -/
theorem C1_decode_failure_characterization :
    (∀ cs : List Char,
      Base64Mod.decode_base64 cs = .error "Invalid Base64 input" ↔
        (cs.any (fun c => 128 ≤ c.toNat) = true ∨
          (∃ e, Base64Mod.a2b_base64 cs = .error e) ∨
          (∃ bs, Base64Mod.a2b_base64 cs = .ok bs ∧
            Base64Mod.utf8Decode bs = none))) ∧
      Base64Mod.decode_base64 "not-valid@@@".toList =
        .error "Invalid Base64 input" := by
  constructor
  · intro cs
    rcases hb : cs.any (fun c => 128 ≤ c.toNat) with _ | _
    · rcases ha : Base64Mod.a2b_base64 cs with e | bs
      · simp [Base64Mod.decode_base64, hb, ha]
      · rcases hu : Base64Mod.utf8Decode bs with _ | cs2
        · simp [Base64Mod.decode_base64, hb, ha, hu]
        · simp [Base64Mod.decode_base64, hb, ha, hu]
    · simp [Base64Mod.decode_base64, hb]
  · decide

/-- C2 counterexample: on U+212A KELVIN SIGN both `encrypt_caesar` and
`decrypt_caesar` raise `ValueError` (`base.index` fails), so they are not
total over all character sequences. -/
theorem C2_counterexample :
    Caesar.encrypt_caesar [Caesar.kelvinSign] 1 =
        .error "substring not found" ∧
      Caesar.decrypt_caesar [Caesar.kelvinSign] 1 =
        .error "substring not found" := by
  decide

/-- C2 amended: for every integer shift and every character sequence that
does not contain U+212A KELVIN SIGN, both `encrypt_caesar` and
`decrypt_caesar` return a result and never raise. -/
theorem C2_total_without_kelvin (xs : List Char) (s : Int)
    (h : Caesar.kelvinSign ∉ xs) :
    (∃ ys, Caesar.encrypt_caesar xs s = .ok ys) ∧
      ∃ zs, Caesar.decrypt_caesar xs s = .ok zs := by
  obtain ⟨ys, hy, -, -⟩ := Caesar.encrypt_total s h
  obtain ⟨zs, hz, -, -⟩ := Caesar.decrypt_total s h
  exact ⟨⟨ys, hy⟩, ⟨zs, hz⟩⟩

/-- C2 witness: the amended totality theorem applied to the concrete input
`"Hi!"` with shift 3. -/
theorem C2_total_without_kelvin_witness :
    (Caesar.kelvinSign ∉ "Hi!".toList) ∧
      ((∃ ys, Caesar.encrypt_caesar "Hi!".toList 3 = .ok ys) ∧
        ∃ zs, Caesar.decrypt_caesar "Hi!".toList 3 = .ok zs) :=
  ⟨by decide, C2_total_without_kelvin "Hi!".toList 3 (by decide)⟩

/-- C3 counterexample: the round trip fails on the sequence consisting of
U+212A KELVIN SIGN (encryption already raises), so the round-trip law does
not hold for every character sequence. -/
theorem C3_counterexample :
    (Caesar.encrypt_caesar [Caesar.kelvinSign] 0).bind
        (fun y => Caesar.decrypt_caesar y 0) ≠ .ok [Caesar.kelvinSign] := by
  decide

/-- C3 amended: for every character sequence without U+212A KELVIN SIGN and
every integer shift (negative, zero, or exceeding 26 in magnitude),
decrypting the encryption returns the original sequence. -/
theorem C3_roundtrip_without_kelvin (xs : List Char) (s : Int)
    (h : Caesar.kelvinSign ∉ xs) :
    (Caesar.encrypt_caesar xs s).bind (fun y => Caesar.decrypt_caesar y s) =
      .ok xs := by
  obtain ⟨ys, he, hd⟩ := Caesar.encrypt_decrypt_roundtrip s h
  rw [he]
  simpa [Except.bind] using hd

/-- C3 witness: the amended round-trip theorem applied to the concrete
input `"abc XYZ!"` with shift -31. -/
theorem C3_roundtrip_without_kelvin_witness :
    (Caesar.kelvinSign ∉ "abc XYZ!".toList) ∧
      (Caesar.encrypt_caesar "abc XYZ!".toList (-31)).bind
        (fun y => Caesar.decrypt_caesar y (-31)) = .ok "abc XYZ!".toList :=
  ⟨by decide, C3_roundtrip_without_kelvin "abc XYZ!".toList (-31) (by decide)⟩

/-- C4: the codec round trip holds for every UTF-8-representable character
sequence (every `List Char`), and encoding is total by construction. -/
theorem C4_codec_roundtrip (x : List Char) :
    Base64Mod.decode_base64 (Base64Mod.encode_base64 x) = .ok x :=
  Base64Mod.decode_encode x

/-- C5: shifting by `s + 26` or `s - 26` encrypts identically to shifting
by `s`, and the effective rotation is the true non-negative modulo of `s`
by 26. -/
theorem C5_shift_normalization (xs : List Char) (s : Int) :
    Caesar.encrypt_caesar xs (s + 26) = Caesar.encrypt_caesar xs s ∧
      Caesar.encrypt_caesar xs (s - 26) = Caesar.encrypt_caesar xs s ∧
      Caesar.encrypt_caesar xs s =
        Caesar.encrypt_caesar xs ((s % 26 + 26) % 26) ∧
      0 ≤ (s % 26 + 26) % 26 ∧ (s % 26 + 26) % 26 < 26 ∧
      (s % 26 + 26) % 26 = s % 26 :=
  ⟨Caesar.encrypt_eq_of_emod_eq xs (by omega),
    Caesar.encrypt_eq_of_emod_eq xs (by omega),
    Caesar.encrypt_eq_of_emod_eq xs (by omega),
    by omega, by omega, by omega⟩

/-- C6: decryption is encryption with the additive inverse rotation: it
coincides with `encrypt_caesar` at shift `-s`, and with applying
`_shift_char` at the rotation `(26 - (s mod 26)) mod 26`. -/
theorem C6_decrypt_is_encrypt_neg (xs : List Char) (s : Int) :
    Caesar.decrypt_caesar xs s = Caesar.encrypt_caesar xs (-s) ∧
      Caesar.decrypt_caesar xs s =
        xs.mapM (fun ch => Caesar.shift_char ch ((26 - s % 26) % 26)) := by
  constructor
  · unfold Caesar.decrypt_caesar Caesar.encrypt_caesar
    exact mapM_congr _ _ xs
      (fun ch _ => Caesar.shift_char_congr ch (by omega))
  · unfold Caesar.decrypt_caesar
    exact mapM_congr _ _ xs
      (fun ch _ => Caesar.shift_char_congr ch (by omega))

/-- C7 counterexample: U+212A KELVIN SIGN is outside both A-Z and a-z,
yet it is not returned unchanged: encryption raises on it. -/
theorem C7_counterexample :
    (Caesar.ALPHABET.contains Caesar.kelvinSign = false ∧
      Caesar.UPPER.contains Caesar.kelvinSign = false) ∧
      Caesar.encrypt_caesar [Caesar.kelvinSign] 1 =
        .error "substring not found" := by
  decide

/-- C7 amended: on every sequence without U+212A KELVIN SIGN, encryption
and decryption succeed, preserve the length, and return every character
outside A-Z and a-z unchanged at the same position. -/
theorem C7_nonletter_identity (xs : List Char) (s : Int)
    (h : Caesar.kelvinSign ∉ xs) :
    ∃ ys zs, Caesar.encrypt_caesar xs s = .ok ys ∧
      Caesar.decrypt_caesar xs s = .ok zs ∧
      ys.length = xs.length ∧ zs.length = xs.length ∧
      ∀ i, i < xs.length →
        Caesar.ALPHABET.contains (xs.getD i ' ') = false →
        Caesar.UPPER.contains (xs.getD i ' ') = false →
          ys.getD i ' ' = xs.getD i ' ' ∧ zs.getD i ' ' = xs.getD i ' ' := by
  obtain ⟨ys, hy, hylen, hypt⟩ := Caesar.encrypt_total s h
  obtain ⟨zs, hz, hzlen, hzpt⟩ := Caesar.decrypt_total s h
  refine ⟨ys, zs, hy, hz, hylen, hzlen, ?_⟩
  intro i hi h1 h2
  have hk := Caesar.getD_ne_kelvin h hi
  constructor
  · have h3 := hypt i hi
    rw [Caesar.shift_char_other _ h1 h2 hk] at h3
    have h4 : xs.getD i ' ' = ys.getD i ' ' := by
      simpa using h3
    exact h4.symm
  · have h3 := hzpt i hi
    rw [Caesar.shift_char_other _ h1 h2 hk] at h3
    have h4 : xs.getD i ' ' = zs.getD i ' ' := by
      simpa using h3
    exact h4.symm

/-- C7 witness: the amended non-letter identity theorem applied to the
concrete input `"a1!"` with shift 7. -/
theorem C7_nonletter_identity_witness :
    (Caesar.kelvinSign ∉ "a1!".toList) ∧
      ∃ ys zs, Caesar.encrypt_caesar "a1!".toList 7 = .ok ys ∧
        Caesar.decrypt_caesar "a1!".toList 7 = .ok zs ∧
        ys.length = "a1!".toList.length ∧ zs.length = "a1!".toList.length ∧
        ∀ i, i < "a1!".toList.length →
          Caesar.ALPHABET.contains ("a1!".toList.getD i ' ') = false →
          Caesar.UPPER.contains ("a1!".toList.getD i ' ') = false →
            ys.getD i ' ' = "a1!".toList.getD i ' ' ∧
              zs.getD i ' ' = "a1!".toList.getD i ' ' :=
  ⟨by decide, C7_nonletter_identity "a1!".toList 7 (by decide)⟩

/-- C8: the concrete negative-shift scenario from the spec:
encrypting `"Hello, World!"` with shift -3 yields `"Ebiil, Tloia!"`. -/
theorem C8_concrete_negative_shift :
    Caesar.encrypt_caesar "Hello, World!".toList (-3) =
      .ok "Ebiil, Tloia!".toList := by
  decide

/-- C9: on every input, `decode_base64` either returns a decoded string or
fails with the single rewrapped `ValueError`; no other outcome exists. -/
theorem C9_error_exclusivity (cs : List Char) :
    (∃ r, Base64Mod.decode_base64 cs = .ok r) ∨
      Base64Mod.decode_base64 cs = .error "Invalid Base64 input" := by
  rcases hb : cs.any (fun c => 128 ≤ c.toNat) with _ | _
  · rcases ha : Base64Mod.a2b_base64 cs with e | bs
    · right
      simp [Base64Mod.decode_base64, hb, ha]
    · rcases hu : Base64Mod.utf8Decode bs with _ | cs2
      · right
        simp [Base64Mod.decode_base64, hb, ha, hu]
      · left
        exact ⟨cs2, by simp [Base64Mod.decode_base64, hb, ha, hu]⟩
  · right
    simp [Base64Mod.decode_base64, hb]

/-- C10: PKCS7 padding always produces a positive multiple of the AES
block size 16, and unpadding a padded byte string recovers it exactly,
without raising. -/
theorem C10_pkcs7_roundtrip (data : List Nat) :
    ((CryptoHelpers.pad data).length % 16 = 0 ∧
      0 < (CryptoHelpers.pad data).length) ∧
      CryptoHelpers.unpad (CryptoHelpers.pad data) = .ok data := by
  refine ⟨⟨?_, ?_⟩, CryptoHelpers.unpad_pad data⟩
  · rw [CryptoHelpers.pad_length]
    omega
  · rw [CryptoHelpers.pad_length]
    omega

end EncApp

